import Mathlib

/-!
# Verification of the HookSocket worker (src/worker.js)

Shallow embedding of the HookSocket Cloudflare worker: the Durable Object
class `WebSocketRoom` with its connection registry (`this.connections`),
keepalive interval (`startPing`), broadcaster (`handleResponse`), path
translator (`translatePath`) and the message-forwarding listener.

JavaScript `JSON.parse` / `JSON.stringify` are modelled by an executable
JSON value type with a serializer and a parser.  Numbers are modelled as
integers and string escaping covers the common escapes (quote, backslash,
newline, tab, carriage return); this is the granularity at which the
worker manipulates payloads (it only parses and re-serializes them).
-/

namespace HookSocket

/-! ## JSON values (model of the JavaScript JSON data that the worker relays) -/

inductive Json where
  | null
  | bool (b : Bool)
  | num (n : Int)
  | str (s : String)
  | arr (elems : List Json)
  | obj (fields : List (String × Json))

/-! ### Serializer (model of JSON.stringify with default arguments) -/

/-- Escape one character of a JSON string the way JSON.stringify does
(for the modelled character range). -/
def escChar (c : Char) : List Char :=
  if c = '"' then ['\\', '"']
  else if c = '\\' then ['\\', '\\']
  else if c = '\n' then ['\\', 'n']
  else if c = '\t' then ['\\', 't']
  else if c = '\r' then ['\\', 'r']
  else [c]

def escList : List Char → List Char
  | [] => []
  | c :: cs => escChar c ++ escList cs

/-- Serialized form of a JSON string value: quote, escaped body, quote. -/
def strChars (s : String) : List Char :=
  '"' :: escList s.data ++ ['"']

def digitChar : Nat → Char
  | 0 => '0'
  | 1 => '1'
  | 2 => '2'
  | 3 => '3'
  | 4 => '4'
  | 5 => '5'
  | 6 => '6'
  | 7 => '7'
  | 8 => '8'
  | _ => '9'

/-- Little-endian decimal digits of `n`; the first argument is fuel so the
definition is structural and computes in the kernel. -/
def natToRevDigitsAux : Nat → Nat → List Char
  | 0, _ => []
  | fuel + 1, n => if n = 0 then [] else digitChar (n % 10) :: natToRevDigitsAux fuel (n / 10)

/-- Decimal representation of a natural number. -/
def natToChars (n : Nat) : List Char :=
  if n = 0 then ['0'] else (natToRevDigitsAux n n).reverse

/-- Decimal representation of an integer (JSON number in this model). -/
def numChars (n : Int) : List Char :=
  if n < 0 then '-' :: natToChars n.natAbs else natToChars n.natAbs

mutual
/-- Characters of the JSON.stringify output for a value. -/
def serChars : Json → List Char
  | .num n => numChars n
  | .str s => strChars s
  | .arr xs => '[' :: serElems xs
  | .obj fs => '{' :: serFields fs
  | .null => ['n', 'u', 'l', 'l']
  | .bool b => if b then ['t', 'r', 'u', 'e'] else ['f', 'a', 'l', 's', 'e']
/-- Comma-separated serialized array elements, with the closing bracket. -/
def serElems : List Json → List Char
  | [] => [']']
  | [x] => serChars x ++ [']']
  | x :: y :: xs => serChars x ++ ',' :: serElems (y :: xs)
/-- Comma-separated serialized object members, with the closing brace. -/
def serFields : List (String × Json) → List Char
  | [] => ['}']
  | [(k, v)] => strChars k ++ ':' :: serChars v ++ ['}']
  | (k, v) :: g :: fs => strChars k ++ ':' :: serChars v ++ ',' :: serFields (g :: fs)
end

/-- Model of `JSON.stringify(x)` for the worker's payloads. -/
def Json.serialize (j : Json) : String :=
  String.mk (serChars j)

/-! ### Parser (model of JSON.parse) -/

/-- Inverse of `escChar` on the escape letter. -/
def unescChar (e : Char) : Option Char :=
  if e = '"' then some '"'
  else if e = '\\' then some '\\'
  else if e = 'n' then some '\n'
  else if e = 't' then some '\t'
  else if e = 'r' then some '\r'
  else none

/-- Parse the body of a JSON string literal; the flag records whether the
previous character was an unconsumed backslash. -/
def parseStrBody : Bool → List Char → Option (List Char × List Char)
  | _, [] => none
  | true, e :: cs =>
    match unescChar e, parseStrBody false cs with
    | some d, some (l, r) => some (d :: l, r)
    | _, _ => none
  | false, c :: cs =>
    if c = '"' then some ([], cs)
    else if c = '\\' then parseStrBody true cs
    else
      match parseStrBody false cs with
      | some (l, r) => some (c :: l, r)
      | none => none

/-- Parse the body of a JSON string literal (after the opening quote),
returning the decoded characters and the input after the closing quote. -/
def parseStrChars : List Char → Option (List Char × List Char) :=
  parseStrBody false

/-- Split the longest run of decimal digits off the front of the input. -/
def spanDigits : List Char → List Char × List Char
  | [] => ([], [])
  | c :: cs =>
    if c.isDigit then
      let (ds, r) := spanDigits cs
      (c :: ds, r)
    else ([], c :: cs)

/-- Numeric value of a big-endian digit list. -/
def digitsVal (ds : List Char) : Nat :=
  ds.foldl (fun a c => 10 * a + (c.toNat - 48)) 0

/-- Parse a nonempty run of digits as a natural number. -/
def parseDigits (cs : List Char) : Option (Nat × List Char) :=
  let p := spanDigits cs
  if p.1.isEmpty then none else some (digitsVal p.1, p.2)

/-- Parse `v (',' v)* ']'` given a parser `pv` for single values; the fuel
bounds the number of elements. -/
def parseListWith (pv : List Char → Option (Json × List Char)) :
    Nat → List Char → Option (List Json × List Char)
  | 0, _ => none
  | k + 1, cs =>
    match pv cs with
    | none => none
    | some (v, r) =>
      match r with
      | [] => none
      | d :: r2 =>
        if d = ',' then (parseListWith pv k r2).map (fun p => (v :: p.1, p.2))
        else if d = ']' then some ([v], r2)
        else none

/-- Parse `str ':' v (',' str ':' v)* with a closing brace` given a parser
`pv` for single values; the fuel bounds the number of members. -/
def parseFieldsWith (pv : List Char → Option (Json × List Char)) :
    Nat → List Char → Option (List (String × Json) × List Char)
  | 0, _ => none
  | k + 1, cs =>
    match cs with
    | [] => none
    | q :: cs' =>
      if q = '"' then
        match parseStrChars cs' with
        | none => none
        | some (kl, r) =>
          match r with
          | [] => none
          | col :: r2 =>
            if col = ':' then
              match pv r2 with
              | none => none
              | some (v, r3) =>
                match r3 with
                | [] => none
                | d :: r4 =>
                  if d = ',' then
                    (parseFieldsWith pv k r4).map
                      (fun p => ((String.mk kl, v) :: p.1, p.2))
                  else if d = '}' then some ([(String.mk kl, v)], r4)
                  else none
            else none
      else none

/-- Parse one JSON value; the fuel bounds the nesting depth. -/
def parseVal : Nat → List Char → Option (Json × List Char)
  | 0, _ => none
  | _ + 1, [] => none
  | fuel + 1, c :: cs =>
    if c = 'n' then
      if cs.take 3 = ['u', 'l', 'l'] then some (.null, cs.drop 3) else none
    else if c = 't' then
      if cs.take 3 = ['r', 'u', 'e'] then some (.bool true, cs.drop 3) else none
    else if c = 'f' then
      if cs.take 4 = ['a', 'l', 's', 'e'] then some (.bool false, cs.drop 4) else none
    else if c = '"' then
      (parseStrChars cs).map (fun p => (Json.str (String.mk p.1), p.2))
    else if c = '[' then
      if cs.head? = some ']' then some (.arr [], cs.tail)
      else (parseListWith (parseVal fuel) cs.length cs).map (fun p => (Json.arr p.1, p.2))
    else if c = '{' then
      if cs.head? = some '}' then some (.obj [], cs.tail)
      else (parseFieldsWith (parseVal fuel) cs.length cs).map (fun p => (Json.obj p.1, p.2))
    else if c = '-' then
      (parseDigits cs).map (fun p => (Json.num (-(p.1 : Int)), p.2))
    else if c.isDigit then
      (parseDigits (c :: cs)).map (fun p => (Json.num ((p.1 : Int)), p.2))
    else none

/-- Model of `JSON.parse`: succeeds only when the whole input is one value. -/
def Json.parse (s : String) : Option Json :=
  match parseVal (s.data.length + 1) s.data with
  | some (j, []) => some j
  | _ => none

/-! ### Round trip: parse of a serialized value returns the value -/

/-- The input does not begin with a digit, so a maximal-munch number parse
just before it cannot leak into it. -/
def digitSafe : List Char → Prop
  | [] => True
  | c :: _ => c.isDigit = false

theorem digitSafe_nil : digitSafe [] := trivial

theorem digitSafe_cons {c : Char} (h : c.isDigit = false) (t : List Char) :
    digitSafe (c :: t) := h

theorem digitChar_isDigit (d : Nat) (h : d < 10) : (digitChar d).isDigit = true := by
  interval_cases d <;> decide

theorem digitChar_toNat (d : Nat) (h : d < 10) : (digitChar d).toNat = 48 + d := by
  interval_cases d <;> decide

theorem natToRevDigitsAux_zero (fuel : Nat) : natToRevDigitsAux fuel 0 = [] := by
  cases fuel <;> simp [natToRevDigitsAux]

theorem natToRevDigitsAux_digits :
    ∀ fuel n, ∀ c ∈ natToRevDigitsAux fuel n, c.isDigit = true := by
  intro fuel
  induction fuel with
  | zero => intro n c hc; simp [natToRevDigitsAux] at hc
  | succ f ih =>
    intro n c hc
    by_cases hn : n = 0
    · simp [natToRevDigitsAux, hn] at hc
    · simp only [natToRevDigitsAux, if_neg hn, List.mem_cons] at hc
      rcases hc with rfl | hc
      · exact digitChar_isDigit _ (Nat.mod_lt _ (by decide))
      · exact ih _ _ hc

theorem digitsVal_snoc (ds : List Char) (c : Char) :
    digitsVal (ds ++ [c]) = 10 * digitsVal ds + (c.toNat - 48) := by
  simp [digitsVal, List.foldl_append]

theorem digitsVal_revAux :
    ∀ fuel n, n ≠ 0 → n ≤ fuel → digitsVal (natToRevDigitsAux fuel n).reverse = n := by
  intro fuel
  induction fuel with
  | zero => intro n h0 hle; omega
  | succ f ih =>
    intro n h0 hle
    rw [show natToRevDigitsAux (f + 1) n
          = digitChar (n % 10) :: natToRevDigitsAux f (n / 10) by
        simp [natToRevDigitsAux, h0]]
    rw [List.reverse_cons, digitsVal_snoc,
      digitChar_toNat _ (Nat.mod_lt _ (by decide))]
    by_cases h10 : n / 10 = 0
    · rw [h10, natToRevDigitsAux_zero]
      simp [digitsVal]
      omega
    · rw [ih _ h10 (by omega)]
      omega

theorem natToChars_ne_nil (n : Nat) : natToChars n ≠ [] := by
  by_cases h : n = 0
  · simp [natToChars, h]
  · rcases n with _ | m
    · exact absurd rfl h
    · simp [natToChars, h, natToRevDigitsAux]

theorem digitsVal_natToChars (n : Nat) : digitsVal (natToChars n) = n := by
  by_cases h : n = 0
  · subst h; decide
  · rw [natToChars, if_neg h]
    exact digitsVal_revAux n n h le_rfl

theorem natToChars_digits (n : Nat) : ∀ c ∈ natToChars n, c.isDigit = true := by
  by_cases h : n = 0
  · subst h; intro c hc; simp [natToChars] at hc; subst hc; decide
  · intro c hc
    rw [natToChars, if_neg h, List.mem_reverse] at hc
    exact natToRevDigitsAux_digits n n c hc

theorem spanDigits_append (ds rest : List Char) (hds : ∀ c ∈ ds, c.isDigit = true)
    (hrest : digitSafe rest) : spanDigits (ds ++ rest) = (ds, rest) := by
  induction ds with
  | nil =>
    cases rest with
    | nil => simp [spanDigits]
    | cons c cs =>
      have hc : c.isDigit = false := hrest
      simp [spanDigits, hc]
  | cons d ds ih =>
    have hd := hds d (by simp)
    have ih' := ih (fun c hc => hds c (by simp [hc]))
    simp [spanDigits, hd, ih']

theorem parseDigits_append (m : Nat) (rest : List Char) (hrest : digitSafe rest) :
    parseDigits (natToChars m ++ rest) = some (m, rest) := by
  have hspan := spanDigits_append (natToChars m) rest (natToChars_digits m) hrest
  have hval := digitsVal_natToChars m
  rcases hne : natToChars m with _ | ⟨d, ds⟩
  · exact absurd hne (natToChars_ne_nil m)
  · rw [hne] at hspan hval
    rw [List.cons_append] at hspan
    simp [parseDigits, hspan, hval]

theorem parseStrBody_escList (l : List Char) :
    ∀ rest, parseStrBody false (escList l ++ '"' :: rest) = some (l, rest) := by
  induction l with
  | nil => intro rest; simp [escList, parseStrBody]
  | cons c l ih =>
    intro rest
    by_cases h1 : c = '"'
    · subst h1; simp [escList, escChar, parseStrBody, unescChar, ih]
    · by_cases h2 : c = '\\'
      · subst h2; simp [escList, escChar, parseStrBody, unescChar, ih]
      · by_cases h3 : c = '\n'
        · subst h3; simp [escList, escChar, parseStrBody, unescChar, ih]
        · by_cases h4 : c = '\t'
          · subst h4; simp [escList, escChar, parseStrBody, unescChar, ih]
          · by_cases h5 : c = '\r'
            · subst h5; simp [escList, escChar, parseStrBody, unescChar, ih]
            · simp [escList, escChar, h1, h2, h3, h4, h5, parseStrBody, ih]

theorem parseStrChars_escList (l : List Char) (rest : List Char) :
    parseStrChars (escList l ++ '"' :: rest) = some (l, rest) :=
  parseStrBody_escList l rest

theorem serChars_ne_nil (j : Json) : serChars j ≠ [] := by
  cases j with
  | null => simp [serChars]
  | bool b => cases b <;> simp [serChars]
  | num n =>
    simp only [serChars, numChars]
    split
    · simp
    · exact natToChars_ne_nil _
  | str s => simp [serChars, strChars]
  | arr xs => simp [serChars]
  | obj fs => simp [serChars]

theorem isDigit_ne (c : Char) (h : c.isDigit = true) :
    c ≠ 'n' ∧ c ≠ 't' ∧ c ≠ 'f' ∧ c ≠ '"' ∧ c ≠ '[' ∧ c ≠ '{' ∧ c ≠ '-' ∧
    c ≠ ']' ∧ c ≠ '}' := by
  refine ⟨?_, ?_, ?_, ?_, ?_, ?_, ?_, ?_, ?_⟩ <;>
    (rintro rfl; exact absurd h (by decide))

theorem serChars_head (j : Json) :
    ∃ c t, serChars j = c :: t ∧ c ≠ ']' ∧ c ≠ '}' := by
  cases j with
  | null => exact ⟨'n', ['u', 'l', 'l'], by simp [serChars], by decide, by decide⟩
  | bool b =>
    cases b
    · exact ⟨'f', ['a', 'l', 's', 'e'], by simp [serChars], by decide, by decide⟩
    · exact ⟨'t', ['r', 'u', 'e'], by simp [serChars], by decide, by decide⟩
  | num n =>
    by_cases h : n < 0
    · exact ⟨'-', natToChars n.natAbs, by simp [serChars, numChars, h],
        by decide, by decide⟩
    · rcases hne : natToChars n.natAbs with _ | ⟨d, ds⟩
      · exact absurd hne (natToChars_ne_nil _)
      · have hd : d.isDigit = true := natToChars_digits n.natAbs d (by rw [hne]; simp)
        obtain ⟨-, -, -, -, -, -, -, h8, h9⟩ := isDigit_ne d hd
        exact ⟨d, ds, by simp [serChars, numChars, h, hne], h8, h9⟩
  | str s =>
    exact ⟨'"', escList s.data ++ ['"'], by simp [serChars, strChars],
      by decide, by decide⟩
  | arr xs => exact ⟨'[', serElems xs, by simp [serChars], by decide, by decide⟩
  | obj fs => exact ⟨'{', serFields fs, by simp [serChars], by decide, by decide⟩

/-! Depth measure used as parser fuel. -/

mutual
def sizeJ : Json → Nat
  | .null => 1
  | .bool _ => 1
  | .num _ => 1
  | .str _ => 1
  | .arr xs => 1 + sizeLmax xs
  | .obj fs => 1 + sizeFmax fs
def sizeLmax : List Json → Nat
  | [] => 0
  | x :: xs => max (sizeJ x) (sizeLmax xs)
def sizeFmax : List (String × Json) → Nat
  | [] => 0
  | p :: fs => max (sizeJ p.2) (sizeFmax fs)
end

theorem sizeJ_pos (j : Json) : 1 ≤ sizeJ j := by
  cases j <;> simp [sizeJ]

theorem sizeJ_le_sizeLmax {x : Json} {xs : List Json} (h : x ∈ xs) :
    sizeJ x ≤ sizeLmax xs := by
  induction xs with
  | nil => cases h
  | cons y ys ih =>
    rcases List.mem_cons.mp h with rfl | h'
    · simp [sizeLmax]
    · have := ih h'
      simp [sizeLmax]
      omega

theorem sizeJ_le_sizeFmax {p : String × Json} {fs : List (String × Json)} (h : p ∈ fs) :
    sizeJ p.2 ≤ sizeFmax fs := by
  induction fs with
  | nil => cases h
  | cons q qs ih =>
    rcases List.mem_cons.mp h with rfl | h'
    · simp [sizeFmax]
    · have := ih h'
      simp [sizeFmax]
      omega

theorem serElems_length (xs : List Json) : xs.length ≤ (serElems xs).length := by
  induction xs with
  | nil => simp [serElems]
  | cons x ys ih =>
    have h1 : 1 ≤ (serChars x).length := List.length_pos.mpr (serChars_ne_nil x)
    cases ys with
    | nil => simp [serElems]
    | cons y zs =>
      simp [serElems] at ih ⊢
      omega

theorem serFields_length (fs : List (String × Json)) :
    fs.length ≤ (serFields fs).length := by
  induction fs with
  | nil => simp [serFields]
  | cons p qs ih =>
    obtain ⟨k, v⟩ := p
    cases qs with
    | nil => simp [serFields]; omega
    | cons q zs =>
      simp [serFields] at ih ⊢
      omega

theorem sizeLmax_le_aux (xs : List Json)
    (h : ∀ x ∈ xs, sizeJ x ≤ (serChars x).length + 1) :
    sizeLmax xs ≤ (serElems xs).length + 1 := by
  induction xs with
  | nil => simp [sizeLmax, serElems]
  | cons x ys ih =>
    have hx := h x (by simp)
    cases ys with
    | nil => simp [sizeLmax, serElems]; omega
    | cons y zs =>
      have hy := ih (fun a ha => h a (by simp [ha]))
      simp [sizeLmax, serElems] at hy ⊢
      omega

theorem sizeFmax_le_aux (fs : List (String × Json))
    (h : ∀ p ∈ fs, sizeJ p.2 ≤ (serChars p.2).length + 1) :
    sizeFmax fs ≤ (serFields fs).length + 1 := by
  induction fs with
  | nil => simp [sizeFmax, serFields]
  | cons p qs ih =>
    obtain ⟨k, v⟩ := p
    have hp : sizeJ v ≤ (serChars v).length + 1 := h (k, v) (by simp)
    cases qs with
    | nil => simp [sizeFmax, serFields]; omega
    | cons q zs =>
      have hq := ih (fun a ha => h a (by simp [ha]))
      simp [sizeFmax, serFields] at hq ⊢
      omega

theorem sizeJ_le_len_aux :
    ∀ n (j : Json), sizeOf j ≤ n → sizeJ j ≤ (serChars j).length + 1 := by
  intro n
  induction n using Nat.strong_induction_on with
  | _ n ih =>
    intro j hj
    cases j with
    | null => simp [sizeJ, serChars]
    | bool b => cases b <;> simp [sizeJ, serChars]
    | num m => simp [sizeJ]
    | str s => simp [sizeJ]
    | arr xs =>
      have hsub : ∀ x ∈ xs, sizeJ x ≤ (serChars x).length + 1 := by
        intro x hx
        have h1 := List.sizeOf_lt_of_mem hx
        have h2 : sizeOf (Json.arr xs) = 1 + sizeOf xs := by simp
        exact ih (sizeOf x) (by omega) x le_rfl
      have := sizeLmax_le_aux xs hsub
      simp [sizeJ, serChars]
      omega
    | obj fs =>
      have hsub : ∀ p ∈ fs, sizeJ p.2 ≤ (serChars p.2).length + 1 := by
        intro p hp
        obtain ⟨k, v⟩ := p
        have h1 := List.sizeOf_lt_of_mem hp
        have h2 : sizeOf (Json.obj fs) = 1 + sizeOf fs := by simp
        have h3 : sizeOf (k, v) = 1 + sizeOf k + sizeOf v := by simp
        exact ih (sizeOf v) (by omega) v le_rfl
      have := sizeFmax_le_aux fs hsub
      simp [sizeJ, serChars]
      omega

theorem sizeJ_le_len (j : Json) : sizeJ j ≤ (serChars j).length + 1 :=
  sizeJ_le_len_aux (sizeOf j) j le_rfl

theorem serElems_cons_shape (x : Json) (ys : List Json) :
    ∃ z, serElems (x :: ys) = serChars x ++ z := by
  cases ys with
  | nil => exact ⟨[']'], by simp [serElems]⟩
  | cons y zs => exact ⟨',' :: serElems (y :: zs), by simp [serElems]⟩

theorem serFields_cons_shape (k : String) (v : Json) (fs : List (String × Json)) :
    ∃ z, serFields ((k, v) :: fs) = '"' :: z := by
  cases fs with
  | nil =>
    exact ⟨escList k.data ++ ['"'] ++ (':' :: serChars v ++ ['}']),
      by simp [serFields, strChars]⟩
  | cons q zs =>
    exact ⟨escList k.data ++ ['"'] ++ (':' :: serChars v ++ ',' :: serFields (q :: zs)),
      by simp [serFields, strChars]⟩

theorem parseListWith_ser (pv : List Char → Option (Json × List Char)) :
    ∀ (xs : List Json), xs ≠ [] →
    (∀ x ∈ xs, ∀ rest, digitSafe rest → pv (serChars x ++ rest) = some (x, rest)) →
    ∀ k rest, xs.length ≤ k →
    parseListWith pv k (serElems xs ++ rest) = some (xs, rest) := by
  intro xs
  induction xs with
  | nil => intro h; exact absurd rfl h
  | cons x ys ih =>
    intro _ hx k rest hk
    cases k with
    | zero => simp at hk
    | succ k =>
      cases ys with
      | nil =>
        have hpx := hx x (by simp) (']' :: rest) (digitSafe_cons (by decide) _)
        simp only [serElems, List.append_assoc, List.cons_append, List.nil_append]
        simp [parseListWith, hpx]
      | cons y zs =>
        have hpx := hx x (by simp) (',' :: (serElems (y :: zs) ++ rest))
          (digitSafe_cons (by decide) _)
        have hrec := ih (by simp) (fun a ha r hr => hx a (by simp [ha]) r hr) k rest
          (by simp at hk ⊢; omega)
        simp only [serElems, List.append_assoc, List.cons_append]
        simp [parseListWith, hpx, hrec]

theorem parseFieldsWith_ser (pv : List Char → Option (Json × List Char)) :
    ∀ (fs : List (String × Json)), fs ≠ [] →
    (∀ p ∈ fs, ∀ rest, digitSafe rest → pv (serChars p.2 ++ rest) = some (p.2, rest)) →
    ∀ k rest, fs.length ≤ k →
    parseFieldsWith pv k (serFields fs ++ rest) = some (fs, rest) := by
  intro fs
  induction fs with
  | nil => intro h; exact absurd rfl h
  | cons p qs ih =>
    intro _ hp k rest hk
    obtain ⟨kk, v⟩ := p
    cases k with
    | zero => simp at hk
    | succ k =>
      cases qs with
      | nil =>
        have hkey := parseStrChars_escList kk.data (':' :: (serChars v ++ '}' :: rest))
        have hpv := hp (kk, v) (by simp) ('}' :: rest) (digitSafe_cons (by decide) _)
        simp only [serFields, strChars, List.append_assoc, List.cons_append,
          List.nil_append]
        simp [parseFieldsWith, hkey, hpv]
      | cons q zs =>
        have hkey := parseStrChars_escList kk.data
          (':' :: (serChars v ++ ',' :: (serFields (q :: zs) ++ rest)))
        have hpv := hp (kk, v) (by simp) (',' :: (serFields (q :: zs) ++ rest))
          (digitSafe_cons (by decide) _)
        have hrec := ih (by simp) (fun a ha r hr => hp a (by simp [ha]) r hr) k rest
          (by simp at hk ⊢; omega)
        simp only [serFields, strChars, List.append_assoc, List.cons_append]
        simp [parseFieldsWith, hkey, hpv, hrec]

theorem parseVal_ser :
    ∀ (fuel : Nat) (j : Json) (rest : List Char), sizeJ j ≤ fuel → digitSafe rest →
    parseVal fuel (serChars j ++ rest) = some (j, rest) := by
  intro fuel
  induction fuel with
  | zero => intro j rest hsz _; have := sizeJ_pos j; omega
  | succ fuel ih =>
    intro j rest hsz hrest
    cases j with
    | null => simp [serChars, parseVal]
    | bool b => cases b <;> simp [serChars, parseVal]
    | str s =>
      have h := parseStrChars_escList s.data rest
      have hmk : String.mk s.data = s := rfl
      simp only [serChars, strChars, List.cons_append, List.append_assoc,
        List.singleton_append]
      simp [parseVal, h, hmk]
    | num m =>
      by_cases hm : m < 0
      · have hpd := parseDigits_append m.natAbs rest hrest
        have hneg : -|m| = m := by rw [abs_of_nonpos (le_of_lt hm), neg_neg]
        simp only [serChars, numChars, if_pos hm, List.cons_append]
        simp [parseVal, hpd, hneg]
      · rcases hne : natToChars m.natAbs with _ | ⟨d, ds⟩
        · exact absurd hne (natToChars_ne_nil _)
        · have hd : d.isDigit = true := natToChars_digits m.natAbs d (by rw [hne]; simp)
          obtain ⟨hn1, hn2, hn3, hn4, hn5, hn6, hn7, -, -⟩ := isDigit_ne d hd
          have hpd := parseDigits_append m.natAbs rest hrest
          rw [hne] at hpd
          simp only [serChars, numChars, if_neg hm, hne, List.cons_append]
          simp [parseVal, hn1, hn2, hn3, hn4, hn5, hn6, hn7, hd]
          rw [show d :: (ds ++ rest) = (d :: ds) ++ rest from rfl, hpd]
          simp
          omega
    | arr xs =>
      cases xs with
      | nil => simp [serChars, serElems, parseVal]
      | cons x ys =>
        obtain ⟨c0, t0, hc0, hne1, _⟩ := serChars_head x
        obtain ⟨z, hz⟩ := serElems_cons_shape x ys
        have hsizes : sizeLmax (x :: ys) ≤ fuel := by
          simp [sizeJ] at hsz; omega
        have hx : ∀ a ∈ x :: ys, ∀ r, digitSafe r →
            parseVal fuel (serChars a ++ r) = some (a, r) := by
          intro a ha r hr
          exact ih a r (le_trans (sizeJ_le_sizeLmax ha) hsizes) hr
        have hlen : (x :: ys).length ≤ (serElems (x :: ys) ++ rest).length := by
          have := serElems_length (x :: ys)
          simp
          simp at this
          omega
        have hlw := parseListWith_ser (parseVal fuel) (x :: ys) (by simp) hx
          (serElems (x :: ys) ++ rest).length rest hlen
        rw [List.length_append] at hlw
        have hhead : (serElems (x :: ys) ++ rest).head? = some c0 := by
          rw [hz, hc0]; simp
        simp only [serChars, List.cons_append]
        simp [parseVal, hhead, hne1, hlw]
    | obj fs =>
      cases fs with
      | nil => simp [serChars, serFields, parseVal]
      | cons p qs =>
        obtain ⟨kk, v⟩ := p
        obtain ⟨z, hz⟩ := serFields_cons_shape kk v qs
        have hsizes : sizeFmax ((kk, v) :: qs) ≤ fuel := by
          simp [sizeJ] at hsz; omega
        have hp : ∀ a ∈ (kk, v) :: qs, ∀ r, digitSafe r →
            parseVal fuel (serChars a.2 ++ r) = some (a.2, r) := by
          intro a ha r hr
          exact ih a.2 r (le_trans (sizeJ_le_sizeFmax ha) hsizes) hr
        have hlen : ((kk, v) :: qs).length ≤ (serFields ((kk, v) :: qs) ++ rest).length := by
          have := serFields_length ((kk, v) :: qs)
          simp
          simp at this
          omega
        have hfw := parseFieldsWith_ser (parseVal fuel) ((kk, v) :: qs) (by simp) hp
          (serFields ((kk, v) :: qs) ++ rest).length rest hlen
        rw [List.length_append] at hfw
        have hhead : (serFields ((kk, v) :: qs) ++ rest).head? = some '"' := by
          rw [hz]; simp
        simp only [serChars, List.cons_append]
        simp [parseVal, hhead, hfw]

/-- JSON round trip: parsing a serialized value gives the value back. -/
theorem parse_serialize (j : Json) : Json.parse (Json.serialize j) = some j := by
  have hdata : (Json.serialize j).data = serChars j := rfl
  have hsz : sizeJ j ≤ (serChars j).length + 1 := sizeJ_le_len j
  have h := parseVal_ser ((serChars j).length + 1) j [] hsz digitSafe_nil
  rw [List.append_nil] at h
  rw [Json.parse, hdata, h]

/-! ## String helpers (models of JS String.prototype methods used by the worker) -/

/-- Model of JS `a.startsWith(b)`: the second list begins the first. -/
def startsWithL : List Char → List Char → Bool
  | _, [] => true
  | [], _ :: _ => false
  | c :: cs, p :: ps => c = p && startsWithL cs ps

/-- Model of JS `a.includes(b)`: the second list occurs inside the first. -/
def includesL : List Char → List Char → Bool
  | [], sub => sub.isEmpty
  | c :: cs, sub => startsWithL (c :: cs) sub || includesL cs sub

/-! ## Configuration (worker.js lines 13-20 and 145-149)

`this.env` with the optional variables `WS_PATH`, `WH_PATH`, `WH_HOST`;
`none` models an unset variable, for which destructuring defaults apply. -/

structure Env where
  WS_PATH : Option String := none
  WH_PATH : Option String := none
  WH_HOST : Option String := none

def DEFAULT_WS_PATH : String := "/websocket"

def DEFAULT_WH_PATH : String := "/webhook"

/-! ## Path translator (worker.js lines 140-156, `translatePath`)

The source checks `path.startsWith(WH_PATH)` and, when it holds, returns
`path.replace(WH_PATH, WS_PATH)`; under the `startsWith` guard the first
occurrence of `WH_PATH` is at position zero, so the replacement is
`WS_PATH ++ path.drop WH_PATH.length`.  Otherwise it throws
`Error("Cannot translate path ...")`, modelled as `Except.error`. -/

def translatePath (env : Env) (path : String) : Except String String :=
  let wsPath := env.WS_PATH.getD DEFAULT_WS_PATH
  let whPath := env.WH_PATH.getD DEFAULT_WH_PATH
  if startsWithL path.data whPath.data then
    .ok (String.mk (wsPath.data ++ path.data.drop whPath.data.length))
  else
    .error ("Cannot translate path " ++ path)

/-! ## Forwarder (worker.js lines 61-73, the message listener)

On a client message with payload `data`, the listener computes
`apiHost = this.env.WH_HOST || url.host` (JS `||` treats the empty string
as falsy), `apiPath = this.translatePath(path)`, and issues
`fetch("https://" + apiHost + apiPath, { method: POST,
headers: content-type application/json, body: JSON.stringify(data) })`.
A `translatePath` throw escapes before any request is issued. -/

structure OutboundRequest where
  host : String
  path : String
  method : String
  contentType : String
  body : String

/-- JS `a || b` for an optional string against a default. -/
def jsOrElse : Option String → String → String
  | some h, d => if h = "" then d else h
  | none, d => d

def forwardMessage (env : Env) (urlHost path data : String) :
    Except String OutboundRequest :=
  let apiHost := jsOrElse env.WH_HOST urlHost
  match translatePath env path with
  | .error e => .error e
  | .ok apiPath =>
    .ok { host := apiHost, path := apiPath, method := "POST",
          contentType := "application/json",
          body := Json.serialize (Json.str data) }

/-! ## Room state

`connections` models the Map `this.connections` (its keys, in insertion
order; the values are the sockets).  `socks` is the store of socket
objects themselves, keyed by socket id: a socket object survives its
registry entry (event-listener closures still reference it).  `timers`
holds the ids whose keepalive interval (started by `startPing`) is still
scheduled. -/

structure Sock where
  sendFails : Bool
  received : List String

structure RoomState where
  socks : List (String × Sock)
  connections : List String
  timers : List String

/-- First-match association-list lookup (Map keys are unique). -/
def lookupS : List (String × Sock) → String → Option Sock
  | [], _ => none
  | p :: rest, id => if p.1 = id then some p.2 else lookupS rest id

/-- Append a delivered message to the log of the socket with the given id. -/
def updLog : List (String × Sock) → String → String → List (String × Sock)
  | [], _, _ => []
  | p :: rest, id, msg =>
    if p.1 = id then (p.1, { p.2 with received := p.2.received ++ [msg] }) :: rest
    else p :: updLog rest id msg

/-- Whether `socket.send` would throw for this id (socket is dead). -/
def failingIn (socks : List (String × Sock)) (id : String) : Bool :=
  match lookupS socks id with
  | some s => s.sendFails
  | none => false

/-- Model of `Map.set` on the registry key set (ids are fresh, so setting
an existing key never changes membership or order). -/
def mapSet (l : List String) (id : String) : List String :=
  if id ∈ l then l else l ++ [id]

/-- Model of `Map.delete` on the registry key set. -/
def mapDelete (l : List String) (id : String) : List String :=
  l.filter (fun x => x ≠ id)

/-! ## Broadcaster (worker.js lines 92-119, `handleResponse`) -/

/-- The send loop of `handleResponse` (lines 107-115): iterate the
registry entries in order; a successful `socket.send(message)` appends to
that socket's delivered-message log, a throwing send marks the id dead.
Returns the updated socket store and the `deadConnections` list. -/
def sendLoop (msg : String) :
    List String → List (String × Sock) → List (String × Sock) × List String
  | [], socks => (socks, [])
  | id :: rest, socks =>
    match lookupS socks id with
    | some s =>
      if s.sendFails then
        let p := sendLoop msg rest socks
        (p.1, id :: p.2)
      else
        sendLoop msg rest (updLog socks id msg)
    | none => sendLoop msg rest socks

/-- Lines 107-118: send to every connection, then delete every marked id
(`deadConnections.forEach(id => this.connections.delete(id))`).  The
keepalive timers are not touched here. -/
def doBroadcast (msg : String) (st : RoomState) : RoomState :=
  let p := sendLoop msg st.connections st.socks
  { st with socks := p.1, connections := p.2.foldl mapDelete st.connections }

/-- The n8n acknowledgment payload skipped at line 103. -/
def sentinelMsg : String := "Workflow was started"

/-- Result of `await (isJson ? obj.json() : obj.text())` at line 100. -/
inductive BodyVal where
  | jsonV (j : Json)
  | textV (s : String)

/-- JS property access `fields.message` on a parsed JSON object: with
duplicate keys, `JSON.parse` keeps the last occurrence. -/
def propLookup (fields : List (String × Json)) (key : String) : Option Json :=
  fields.foldl (fun acc p => if p.1 = key then some p.2 else acc) none

/-- `parsedRes?.message`: only a JSON object has a `message` property; a
string, array, number, boolean or null yields `undefined` (`none`). -/
def messageProp : BodyVal → Option Json
  | .jsonV (.obj fs) => propLookup fs "message"
  | .jsonV _ => none
  | .textV _ => none

/-- `parsedRes?.message` on a plain parsed JSON value. -/
def jsonMessageProp (j : Json) : Option Json :=
  messageProp (.jsonV j)

/-- `const message = isJson ? JSON.stringify(parsedRes) : parsedRes` (line 105). -/
def valToMessage : BodyVal → String
  | .jsonV j => Json.serialize j
  | .textV s => s

/-- JS strict equality `x === 'Workflow was started'` on an optional
property value: true only when the property exists, is a string, and is
that exact string. -/
def isSentinel : Option Json → Bool
  | some (.str s) => s = sentinelMsg
  | _ => false

/-- Whether the content type declares JSON (line 99:
`contentType.includes('application/json')`). -/
def isJsonCT (ct : String) : Bool :=
  includesL ct.data ("application/json").data

/-- `handleResponse` (lines 97-119) on a body with the given declared
content type.  A JSON-typed body that fails to parse makes `obj.json()`
throw (`Except.error`), before any state is touched.  The sentinel check
at line 103 returns early with no send.  Otherwise the message is sent to
every connection and dead connections are deleted. -/
def handleResponse (ct body : String) (st : RoomState) : Except String RoomState :=
  let isJson := isJsonCT ct
  match (if isJson then (Json.parse body).map BodyVal.jsonV else some (.textV body)) with
  | none => .error "SyntaxError"
  | some v =>
    if isSentinel (messageProp v) then .ok st
    else .ok (doBroadcast (valToMessage v) st)

/-! ## Keepalive monitor (worker.js lines 121-138, `startPing`) -/

/-- The probe payload sent at line 130. -/
def pingMsg : String := "ping"

/-- The interval length in milliseconds (line 135). -/
def pingIntervalMs : Nat := 30000

/-- One firing of the interval started by `startPing` for `id`: if the
interval is still scheduled, try `socket.send('ping')`; on a throw,
`clearInterval` and delete the id from the registry; on success the
socket's log records the probe. -/
def pingTick (id : String) (st : RoomState) : RoomState :=
  if id ∈ st.timers then
    match lookupS st.socks id with
    | some s =>
      if s.sendFails then
        { st with timers := mapDelete st.timers id,
                  connections := mapDelete st.connections id }
      else { st with socks := updLog st.socks id pingMsg }
    | none => st
  else st

/-- The socket's close event: both installed close listeners run — the one
at lines 75-78 deletes the id from the registry, the one at line 137
clears the keepalive interval. -/
def closeEv (id : String) (st : RoomState) : RoomState :=
  { st with connections := mapDelete st.connections id,
            timers := mapDelete st.timers id }

/-- `k` consecutive firings of the keepalive interval for `id`. -/
def iterTicks : Nat → String → RoomState → RoomState
  | 0, _, st => st
  | k + 1, id, st => iterTicks k id (pingTick id st)

/-! ## Room fetch handler (worker.js lines 41-90, `WebSocketRoom.fetch`)

The branches in source order: `OPTIONS` preflight (204), `Upgrade:
websocket` (accept, register, start keepalive, 101), `POST` (broadcast via
`handleResponse`, 200), otherwise 405.  `newId` stands for the
`crypto.randomUUID()` result.  An exception thrown out of
`handleResponse` propagates to the HTTP caller before any state mutation
(the only throwing step, `obj.json()`, precedes all sends), so the error
outcome is paired with the unchanged state. -/

structure Request where
  method : String
  upgradeHeader : Option String
  contentType : String
  body : String

def roomFetch (req : Request) (newId : String) (st : RoomState) :
    Except String Nat × RoomState :=
  if req.method = "OPTIONS" then (.ok 204, st)
  else if req.upgradeHeader = some "websocket" then
    (.ok 101,
      { socks := st.socks ++ [(newId, { sendFails := false, received := [] })],
        connections := mapSet st.connections newId,
        timers := st.timers ++ [newId] })
  else if req.method = "POST" then
    match handleResponse req.contentType req.body st with
    | .ok st' => (.ok 200, st')
    | .error e => (.error e, st)
  else (.ok 405, st)

/-! ## Registry operation sequences (for the admit/remove algebra)

`register` models the upgrade branch's admission: `this.connections.set(socketId, server)`
with a fresh `crypto.randomUUID()` id; `remove` models
`this.connections.delete(id)` from any of the three removal sites. -/

inductive RegOp where
  | register (id : String)
  | remove (id : String)
deriving DecidableEq

def applyOp (l : List String) : RegOp → List String
  | .register id => mapSet l id
  | .remove id => mapDelete l id

def runOps (ops : List RegOp) : List String :=
  ops.foldl applyOp []

/-- Freshness discipline of `crypto.randomUUID()`: an admitted id has not
appeared anywhere earlier in the operation sequence. -/
def wfFrom : List String → List RegOp → Bool
  | _, [] => true
  | seen, .register id :: rest =>
    if id ∈ seen then false else wfFrom (id :: seen) rest
  | seen, .remove id :: rest => wfFrom (id :: seen) rest

/-! ## Lemmas about the registry and the send loop -/

theorem lookupS_updLog_self (socks : List (String × Sock)) (id msg : String) :
    lookupS (updLog socks id msg) id
      = (lookupS socks id).map
          (fun s => { s with received := s.received ++ [msg] }) := by
  induction socks with
  | nil => simp [updLog, lookupS]
  | cons p rest ih =>
    by_cases h : p.1 = id
    · simp [updLog, lookupS, h]
    · simp [updLog, lookupS, h, ih]

theorem lookupS_updLog_ne (socks : List (String × Sock)) {id id' : String}
    (h : id ≠ id') (msg : String) :
    lookupS (updLog socks id' msg) id = lookupS socks id := by
  induction socks with
  | nil => simp [updLog, lookupS]
  | cons p rest ih =>
    by_cases hp : p.1 = id'
    · simp [updLog, lookupS, hp, Ne.symm h]
    · simp [updLog, lookupS, hp, ih]

theorem failingIn_updLog (socks : List (String × Sock)) (id id' msg : String) :
    failingIn (updLog socks id' msg) id = failingIn socks id := by
  by_cases h : id = id'
  · subst h
    rw [failingIn, failingIn, lookupS_updLog_self]
    cases lookupS socks id <;> simp
  · rw [failingIn, failingIn, lookupS_updLog_ne socks h]

theorem sendLoop_failing (msg : String) :
    ∀ (conns : List String) (socks : List (String × Sock)) (id : String),
    failingIn (sendLoop msg conns socks).1 id = failingIn socks id := by
  intro conns
  induction conns with
  | nil => intro socks id; simp [sendLoop]
  | cons c rest ih =>
    intro socks id
    rcases hl : lookupS socks c with _ | s
    · simp [sendLoop, hl, ih]
    · by_cases hf : s.sendFails
      · simp [sendLoop, hl, hf, ih]
      · simp [sendLoop, hl, hf, ih, failingIn_updLog]

theorem sendLoop_dead (msg : String) :
    ∀ (conns : List String) (socks : List (String × Sock)),
    (sendLoop msg conns socks).2 = conns.filter (fun id => failingIn socks id) := by
  intro conns
  induction conns with
  | nil => intro socks; simp [sendLoop]
  | cons c rest ih =>
    intro socks
    rcases hl : lookupS socks c with _ | s
    · have hc : failingIn socks c = false := by simp [failingIn, hl]
      simp [sendLoop, hl, ih, hc]
    · by_cases hf : s.sendFails
      · have hc : failingIn socks c = true := by simp [failingIn, hl, hf]
        simp [sendLoop, hl, hf, ih, hc]
      · have hc : failingIn socks c = false := by simp [failingIn, hl, hf]
        have := ih (updLog socks c msg)
        simp [sendLoop, hl, hf, hc, this, failingIn_updLog]

theorem sendLoop_lookup_not_mem (msg : String) :
    ∀ (conns : List String) (socks : List (String × Sock)) {id : String},
    id ∉ conns → lookupS (sendLoop msg conns socks).1 id = lookupS socks id := by
  intro conns
  induction conns with
  | nil => intro socks id _; simp [sendLoop]
  | cons c rest ih =>
    intro socks id hid
    have hne : id ≠ c := fun h => hid (by simp [h])
    have hrest : id ∉ rest := fun h => hid (by simp [h])
    rcases hl : lookupS socks c with _ | s
    · simp [sendLoop, hl, ih _ hrest]
    · by_cases hf : s.sendFails
      · simp [sendLoop, hl, hf, ih _ hrest]
      · simp [sendLoop, hl, hf, ih _ hrest, lookupS_updLog_ne _ hne]

theorem sendLoop_lookup_ok (msg : String) :
    ∀ (conns : List String) (socks : List (String × Sock)) {id : String},
    conns.Nodup → id ∈ conns → failingIn socks id = false →
    lookupS (sendLoop msg conns socks).1 id
      = (lookupS socks id).map
          (fun s => { s with received := s.received ++ [msg] }) := by
  intro conns
  induction conns with
  | nil => intro socks id _ h; cases h
  | cons c rest ih =>
    intro socks id hnd hm hf
    rcases List.mem_cons.mp hm with rfl | hm'
    · have hrest : id ∉ rest := (List.nodup_cons.mp hnd).1
      rcases hl : lookupS socks id with _ | s
      · simp [sendLoop, hl, sendLoop_lookup_not_mem msg rest socks hrest, hl]
      · have hs : s.sendFails = false := by
          have := hf; rw [failingIn, hl] at this; exact this
        simp [sendLoop, hl, hs, sendLoop_lookup_not_mem msg rest _ hrest,
          lookupS_updLog_self, hl]
    · have hne : id ≠ c := by
        rintro rfl; exact (List.nodup_cons.mp hnd).1 hm'
      have hnd' := (List.nodup_cons.mp hnd).2
      rcases hl : lookupS socks c with _ | s
      · simp [sendLoop, hl, ih _ hnd' hm' hf]
      · by_cases hsf : s.sendFails
        · simp [sendLoop, hl, hsf, ih _ hnd' hm' hf]
        · have hf' : failingIn (updLog socks c msg) id = false := by
            rw [failingIn_updLog]; exact hf
          simp [sendLoop, hl, hsf, ih _ hnd' hm' hf',
            lookupS_updLog_ne _ hne]

theorem sendLoop_lookup_fail (msg : String) :
    ∀ (conns : List String) (socks : List (String × Sock)) {id : String},
    conns.Nodup → failingIn socks id = true →
    lookupS (sendLoop msg conns socks).1 id = lookupS socks id := by
  intro conns
  induction conns with
  | nil => intro socks id _ _; simp [sendLoop]
  | cons c rest ih =>
    intro socks id hnd hf
    have hnd' := (List.nodup_cons.mp hnd).2
    rcases hl : lookupS socks c with _ | s
    · simp [sendLoop, hl, ih _ hnd' hf]
    · by_cases hsf : s.sendFails
      · simp [sendLoop, hl, hsf, ih _ hnd' hf]
      · have hne : id ≠ c := by
          rintro rfl
          rw [failingIn, hl] at hf
          exact hsf hf
        have hf' : failingIn (updLog socks c msg) id = true := by
          rw [failingIn_updLog]; exact hf
        simp [sendLoop, hl, hsf, ih _ hnd' hf', lookupS_updLog_ne _ hne]

theorem mapDelete_not_mem {l : List String} {id : String} (h : id ∉ l) :
    mapDelete l id = l := by
  rw [mapDelete]
  apply List.filter_eq_self.mpr
  intro x hx
  simp only [ne_eq, decide_eq_true_eq]
  rintro rfl
  exact h hx

theorem foldl_mapDelete_eq_filter :
    ∀ (dead l : List String),
    dead.foldl mapDelete l = l.filter (fun x => decide (x ∉ dead)) := by
  intro dead
  induction dead with
  | nil => intro l; simp
  | cons d ds ih =>
    intro l
    rw [List.foldl_cons, ih, mapDelete, List.filter_filter]
    apply List.filter_congr
    intro x _
    by_cases h1 : x = d <;> by_cases h2 : x ∈ ds <;> simp [h1, h2]

theorem doBroadcast_connections (msg : String) (st : RoomState) :
    (doBroadcast msg st).connections
      = st.connections.filter (fun id => !failingIn st.socks id) := by
  rw [doBroadcast]
  simp only
  rw [sendLoop_dead, foldl_mapDelete_eq_filter]
  apply List.filter_congr
  intro x hx
  by_cases h : failingIn st.socks x = true <;> simp [h, hx]

theorem doBroadcast_timers (msg : String) (st : RoomState) :
    (doBroadcast msg st).timers = st.timers := rfl

theorem mem_mapSet {l : List String} {a id : String} :
    id ∈ mapSet l a ↔ id ∈ l ∨ id = a := by
  rw [mapSet]
  by_cases h : a ∈ l
  · simp only [h, if_true]
    constructor
    · exact Or.inl
    · rintro (h2 | rfl)
      · exact h2
      · exact h
  · simp [h]

theorem mem_mapDelete {l : List String} {a id : String} :
    id ∈ mapDelete l a ↔ id ∈ l ∧ id ≠ a := by
  simp [mapDelete, List.mem_filter]

theorem wfFrom_no_register :
    ∀ (ops : List RegOp) (seen : List String) (id : String),
    wfFrom seen ops = true → id ∈ seen → RegOp.register id ∉ ops := by
  intro ops
  induction ops with
  | nil => intro seen id _ _; simp
  | cons op rest ih =>
    intro seen id hwf hseen hmem
    cases op with
    | register a =>
      rw [wfFrom] at hwf
      by_cases ha : a ∈ seen
      · simp [ha] at hwf
      · rw [if_neg ha] at hwf
        rcases List.mem_cons.mp hmem with heq | hmem'
        · cases heq
          exact ha hseen
        · exact ih (a :: seen) id hwf (by simp [hseen]) hmem'
    | remove a =>
      rw [wfFrom] at hwf
      rcases List.mem_cons.mp hmem with heq | hmem'
      · exact RegOp.noConfusion heq
      · exact ih (a :: seen) id hwf (by simp [hseen]) hmem'

theorem runOps_mem_aux :
    ∀ (ops : List RegOp) (seen l : List String),
    wfFrom seen ops = true → (∀ x ∈ l, x ∈ seen) →
    ∀ id, (id ∈ ops.foldl applyOp l ↔
      ((id ∈ l ∨ RegOp.register id ∈ ops) ∧ RegOp.remove id ∉ ops)) := by
  intro ops
  induction ops with
  | nil => intro seen l _ _ id; simp
  | cons op rest ih =>
    intro seen l hwf hsub id
    cases op with
    | register a =>
      rw [wfFrom] at hwf
      by_cases ha : a ∈ seen
      · simp [ha] at hwf
      · rw [if_neg ha] at hwf
        have hsub' : ∀ x ∈ applyOp l (RegOp.register a), x ∈ a :: seen := by
          intro x hx
          rw [applyOp] at hx
          rcases mem_mapSet.mp hx with hx' | rfl
          · exact List.mem_cons.mpr (Or.inr (hsub x hx'))
          · exact List.mem_cons_self _ _
        rw [List.foldl_cons, ih (a :: seen) _ hwf hsub' id, applyOp]
        simp only [mem_mapSet, List.mem_cons, RegOp.register.injEq,
          reduceCtorEq, false_or]
        tauto
    | remove a =>
      rw [wfFrom] at hwf
      have hsub' : ∀ x ∈ applyOp l (RegOp.remove a), x ∈ a :: seen := by
        intro x hx
        rw [applyOp] at hx
        exact List.mem_cons.mpr (Or.inr (hsub x (mem_mapDelete.mp hx).1))
      rw [List.foldl_cons, ih (a :: seen) _ hwf hsub' id, applyOp]
      by_cases hid : id = a
      · subst hid
        have hna : RegOp.register id ∉ rest :=
          wfFrom_no_register rest (id :: seen) id hwf (List.mem_cons_self _ _)
        simp only [mem_mapDelete, List.mem_cons, RegOp.remove.injEq,
          reduceCtorEq, false_or, ne_eq, not_true_eq_false, and_false,
          false_and]
        all_goals tauto
      · simp only [mem_mapDelete, List.mem_cons, RegOp.remove.injEq,
          reduceCtorEq, false_or, ne_eq, hid, not_false_eq_true, and_true]

/-! ## Further helper lemmas -/

theorem doBroadcast_socks (msg : String) (st : RoomState) :
    (doBroadcast msg st).socks = (sendLoop msg st.connections st.socks).1 := rfl

theorem length_filter_split (l : List String) (p : String → Bool) :
    (l.filter p).length + (l.filter (fun x => !p x)).length = l.length := by
  induction l with
  | nil => simp
  | cons a t ih =>
    by_cases h : p a <;> simp [List.filter_cons, h] <;> omega

theorem pingTick_skip {st : RoomState} {id : String} (h : id ∉ st.timers) :
    pingTick id st = st := by
  rw [pingTick, if_neg h]

theorem pingTick_fail {st : RoomState} {id : String} {s : Sock}
    (ht : id ∈ st.timers) (hl : lookupS st.socks id = some s)
    (hf : s.sendFails = true) :
    pingTick id st = { st with timers := mapDelete st.timers id,
                               connections := mapDelete st.connections id } := by
  rw [pingTick, if_pos ht, hl]
  simp [hf]

theorem pingTick_ok {st : RoomState} {id : String} {s : Sock}
    (ht : id ∈ st.timers) (hl : lookupS st.socks id = some s)
    (hf : s.sendFails = false) :
    pingTick id st = { st with socks := updLog st.socks id pingMsg } := by
  rw [pingTick, if_pos ht, hl]
  simp [hf]

theorem iterTicks_ok :
    ∀ (k : Nat) (st : RoomState) (id : String) (s : Sock),
    lookupS st.socks id = some s → s.sendFails = false → id ∈ st.timers →
    lookupS (iterTicks k id st).socks id
      = some { s with received := s.received ++ List.replicate k pingMsg }
    ∧ id ∈ (iterTicks k id st).timers := by
  intro k
  induction k with
  | zero => intro st id s hl _ ht; simp [iterTicks, hl, ht]
  | succ k ih =>
    intro st id s hl hf ht
    rw [iterTicks, pingTick_ok ht hl hf]
    have hl' : lookupS (updLog st.socks id pingMsg) id
        = some { s with received := s.received ++ [pingMsg] } := by
      rw [lookupS_updLog_self, hl]
      rfl
    have hres := ih { st with socks := updLog st.socks id pingMsg } id
      { s with received := s.received ++ [pingMsg] } hl' hf ht
    simpa [List.replicate_succ] using hres

/-! ## Claim theorems -/

/-- C1: the claim says `translatePath` maps `socketPrefix + suffix` to
`httpPrefix + suffix` and fails for paths starting with no socket-side
prefix.  The code does the opposite: with the default configuration
(`WS_PATH = /websocket`, `WH_PATH = /webhook`) it throws on the
socket-side path `/websocket/test` — the path every admitted connection
actually has — and instead maps the HTTP-side path `/webhook/suffix` to
`/websocket/suffix`, contradicting both the claim and the function's own
doc comment ("Translates the WebSocket path to the corresponding Webhook
path"). -/
theorem translatePath_swaps_directions :
    translatePath {} "/websocket/test"
      = .error "Cannot translate path /websocket/test"
    ∧ translatePath {} "/webhook/suffix" = .ok "/websocket/suffix" :=
  ⟨rfl, rfl⟩

/-- C5: the claim says every client message is forwarded as one POST to
`https://{host}{translated path}` with content type `application/json`
and a JSON-string body.  In the code the message listener calls
`translatePath` on the connection's own path, which starts with
`WS_PATH`; with the default configuration that throws (see C1), so no
outbound request is issued at all.  The JSON-string body encoding itself
(`JSON.stringify(data)`) is as claimed, as the second conjunct records. -/
theorem forwardMessage_throws_on_admitted_path :
    forwardMessage {} "example.com" "/websocket/test" "hi"
      = .error "Cannot translate path /websocket/test"
    ∧ Json.serialize (Json.str "hi") = "\"hi\"" := by
  constructor
  · rfl
  · simp [Json.serialize, serChars, strChars, escList, escChar]

/-- C2: broadcasting over a registry of N connections of which exactly K
throw on send delivers the message to the other N−K, removes exactly the
K failing ids after the loop, and a subsequent broadcast delivers only to
(and to all of) the remaining N−K, evicting none and never touching the
already-evicted sockets. -/
theorem broadcast_evicts_failing_delivers_rest (st : RoomState) (msg msg2 : String)
    (N K : Nat) (hnd : st.connections.Nodup)
    (hN : st.connections.length = N)
    (hK : (st.connections.filter (fun id => failingIn st.socks id)).length = K) :
    ((doBroadcast msg st).connections
        = st.connections.filter (fun id => !failingIn st.socks id))
    ∧ (doBroadcast msg st).connections.length = N - K
    ∧ (∀ id s, id ∈ st.connections → lookupS st.socks id = some s →
        s.sendFails = false →
        lookupS (doBroadcast msg st).socks id
          = some { s with received := s.received ++ [msg] })
    ∧ (∀ id s, id ∈ st.connections → lookupS st.socks id = some s →
        s.sendFails = true →
        lookupS (doBroadcast msg st).socks id = some s
        ∧ id ∉ (doBroadcast msg st).connections)
    ∧ (doBroadcast msg2 (doBroadcast msg st)).connections
        = (doBroadcast msg st).connections
    ∧ (∀ id s, id ∈ (doBroadcast msg st).connections →
        lookupS (doBroadcast msg st).socks id = some s →
        lookupS (doBroadcast msg2 (doBroadcast msg st)).socks id
          = some { s with received := s.received ++ [msg2] })
    ∧ (∀ id, id ∈ st.connections → failingIn st.socks id = true →
        lookupS (doBroadcast msg2 (doBroadcast msg st)).socks id
          = lookupS (doBroadcast msg st).socks id) := by
  have hconn := doBroadcast_connections msg st
  have hfail : ∀ id, failingIn (doBroadcast msg st).socks id = failingIn st.socks id := by
    intro id
    rw [doBroadcast_socks]
    exact sendLoop_failing msg st.connections st.socks id
  have hmem' : ∀ id, id ∈ (doBroadcast msg st).connections →
      id ∈ st.connections ∧ failingIn st.socks id = false := by
    intro id hm
    rw [hconn, List.mem_filter] at hm
    exact ⟨hm.1, by simpa using hm.2⟩
  have hnd' : (doBroadcast msg st).connections.Nodup := by
    rw [hconn]; exact hnd.filter _
  refine ⟨hconn, ?_, ?_, ?_, ?_, ?_, ?_⟩
  · have hsplit := length_filter_split st.connections (fun id => failingIn st.socks id)
    rw [hconn]
    omega
  · intro id s hm hl hf
    rw [doBroadcast_socks,
      sendLoop_lookup_ok msg st.connections st.socks hnd hm
        (by rw [failingIn, hl]; exact hf),
      hl]
    rfl
  · intro id s hm hl hf
    constructor
    · rw [doBroadcast_socks,
        sendLoop_lookup_fail msg st.connections st.socks hnd
          (by rw [failingIn, hl]; exact hf)]
      exact hl
    · rw [hconn, List.mem_filter]
      rintro ⟨-, hcontra⟩
      simp [failingIn, hl, hf] at hcontra
  · rw [doBroadcast_connections]
    apply List.filter_eq_self.mpr
    intro id hm
    rw [hfail id, (hmem' id hm).2]
    rfl
  · intro id s hm hl
    rw [doBroadcast_socks,
      sendLoop_lookup_ok msg2 (doBroadcast msg st).connections
        (doBroadcast msg st).socks hnd' hm
        (by rw [hfail id]; exact (hmem' id hm).2),
      hl]
    rfl
  · intro id hm hf
    have hnotm : id ∉ (doBroadcast msg st).connections := by
      rw [hconn, List.mem_filter]
      rintro ⟨-, hcontra⟩
      simp [hf] at hcontra
    rw [doBroadcast_socks]
    exact sendLoop_lookup_not_mem msg2 (doBroadcast msg st).connections
      (doBroadcast msg st).socks hnotm

theorem broadcast_evicts_failing_delivers_rest_witness :
    (doBroadcast "m"
      ⟨[("a", ⟨false, []⟩), ("b", ⟨true, []⟩), ("c", ⟨false, []⟩)],
       ["a", "b", "c"], []⟩).connections.length = 3 - 1 :=
  (broadcast_evicts_failing_delivers_rest
    ⟨[("a", ⟨false, []⟩), ("b", ⟨true, []⟩), ("c", ⟨false, []⟩)],
     ["a", "b", "c"], []⟩ "m" "m2" 3 1 (by decide) (by decide) (by decide)).2.1

/-- C3: for a JSON-typed body that parses to `j`: if `j` is an object
whose `message` property is the sentinel string "Workflow was started",
`handleResponse` returns with the state untouched (no connection receives
anything); otherwise the re-serialized value `serialize j` is delivered
to every live connection; and the round trip
`parse (serialize j) = some j` holds. -/
theorem json_body_sentinel_suppressed_else_delivered (ct body : String)
    (st : RoomState) (j : Json) (hct : isJsonCT ct = true)
    (hp : Json.parse body = some j) (hnd : st.connections.Nodup) :
    (isSentinel (jsonMessageProp j) = true → handleResponse ct body st = .ok st)
    ∧ (isSentinel (jsonMessageProp j) = false →
        handleResponse ct body st = .ok (doBroadcast (Json.serialize j) st)
        ∧ ∀ id s, id ∈ st.connections → lookupS st.socks id = some s →
            s.sendFails = false →
            lookupS (doBroadcast (Json.serialize j) st).socks id
              = some { s with received := s.received ++ [Json.serialize j] })
    ∧ Json.parse (Json.serialize j) = some j := by
  refine ⟨?_, ?_, parse_serialize j⟩
  · intro hs
    have hs' : isSentinel (messageProp (.jsonV j)) = true := hs
    simp [handleResponse, hct, hp, hs']
  · intro hs
    have hs' : isSentinel (messageProp (.jsonV j)) = false := hs
    constructor
    · simp [handleResponse, hct, hp, hs', valToMessage]
    · intro id s hm hl hf
      rw [doBroadcast_socks,
        sendLoop_lookup_ok (Json.serialize j) st.connections st.socks hnd hm
          (by rw [failingIn, hl]; exact hf),
        hl]
      rfl

theorem json_body_sentinel_suppressed_else_delivered_witness :
    Json.parse (Json.serialize (Json.obj [("text", Json.str "hello")]))
      = some (Json.obj [("text", Json.str "hello")]) :=
  (json_body_sentinel_suppressed_else_delivered "application/json"
    (Json.serialize (Json.obj [("text", Json.str "hello")]))
    ⟨[], [], []⟩ (Json.obj [("text", Json.str "hello")]) rfl
    (parse_serialize _) (by decide)).2.2

/-- C9: a body whose content type does not contain "application/json" is
read as raw text and that text is broadcast unchanged to every live
connection — never suppressed, even when the text is exactly the sentinel
payload (the witness delivers the serialized sentinel object as text). -/
theorem non_json_body_text_passthrough (ct body : String) (st : RoomState)
    (hct : isJsonCT ct = false) (hnd : st.connections.Nodup) :
    handleResponse ct body st = .ok (doBroadcast body st)
    ∧ ∀ id s, id ∈ st.connections → lookupS st.socks id = some s →
        s.sendFails = false →
        lookupS (doBroadcast body st).socks id
          = some { s with received := s.received ++ [body] } := by
  constructor
  · simp [handleResponse, hct, messageProp, isSentinel, valToMessage]
  · intro id s hm hl hf
    rw [doBroadcast_socks,
      sendLoop_lookup_ok body st.connections st.socks hnd hm
        (by rw [failingIn, hl]; exact hf),
      hl]
    rfl

theorem non_json_body_text_passthrough_witness :
    lookupS (doBroadcast
        (Json.serialize (Json.obj [("message", Json.str "Workflow was started")]))
        ⟨[("a", ⟨false, []⟩)], ["a"], []⟩).socks "a"
      = some ⟨false,
          [Json.serialize (Json.obj [("message", Json.str "Workflow was started")])]⟩ := by
  have h := (non_json_body_text_passthrough "text/plain"
    (Json.serialize (Json.obj [("message", Json.str "Workflow was started")]))
    ⟨[("a", ⟨false, []⟩)], ["a"], []⟩ rfl (by decide)).2
    "a" ⟨false, []⟩ (by decide) rfl rfl
  simpa using h

/-- C4 counterexample: the claim says every removal from the registry
stops the connection's keepalive timer.  A removal triggered by a failed
send during broadcast (lines 107-118) only deletes the id from
`this.connections`; it never calls `clearInterval`, so the id's timer is
still scheduled after the eviction. -/
theorem broadcast_eviction_leaves_timer :
    "a" ∉ (doBroadcast "m" ⟨[("a", ⟨true, []⟩)], ["a"], ["a"]⟩).connections
    ∧ "a" ∈ (doBroadcast "m" ⟨[("a", ⟨true, []⟩)], ["a"], ["a"]⟩).timers := by
  decide

/-- C4 (amended): removals triggered by the transport close event and by
a failed keepalive probe do stop the keepalive timer as part of the
removal; a removal by a failed broadcast send does not (see the
counterexample), leaving the timer scheduled until its own next probe
fails or the close event fires. -/
theorem close_and_ping_removals_stop_timer (st : RoomState) (id : String) (s : Sock) :
    (id ∉ (closeEv id st).connections ∧ id ∉ (closeEv id st).timers)
    ∧ (id ∈ st.timers → lookupS st.socks id = some s → s.sendFails = true →
        id ∉ (pingTick id st).connections ∧ id ∉ (pingTick id st).timers) := by
  constructor
  · constructor <;> (rw [closeEv]; simp [mem_mapDelete])
  · intro ht hl hf
    rw [pingTick_fail ht hl hf]
    constructor <;> simp [mem_mapDelete]

theorem close_and_ping_removals_stop_timer_witness :
    "a" ∉ (pingTick "a" ⟨[("a", ⟨true, []⟩)], ["a"], ["a"]⟩).connections
    ∧ "a" ∉ (pingTick "a" ⟨[("a", ⟨true, []⟩)], ["a"], ["a"]⟩).timers :=
  (close_and_ping_removals_stop_timer
    ⟨[("a", ⟨true, []⟩)], ["a"], ["a"]⟩ "a" ⟨true, []⟩).2 (by decide) rfl rfl

/-- C7: while a connection has neither failed a probe nor closed, each
firing of its 30000 ms keepalive interval sends exactly one "ping" probe
(k firings append exactly k probes and the timer stays scheduled); on a
probe send failure the timer cancels its own future firings and the id is
removed from the registry, and a further firing does nothing; after the
close event the timer is cancelled, and a tick of a cancelled timer sends
nothing. -/
theorem keepalive_probe_schedule (st : RoomState) (id : String) (s : Sock) (k : Nat) :
    (lookupS st.socks id = some s → s.sendFails = false → id ∈ st.timers →
      lookupS (iterTicks k id st).socks id
        = some { s with received := s.received ++ List.replicate k pingMsg }
      ∧ id ∈ (iterTicks k id st).timers)
    ∧ (id ∈ st.timers → lookupS st.socks id = some s → s.sendFails = true →
        id ∉ (pingTick id st).timers ∧ id ∉ (pingTick id st).connections
        ∧ pingTick id (pingTick id st) = pingTick id st)
    ∧ (id ∉ (closeEv id st).timers
        ∧ (∀ st' : RoomState, id ∉ st'.timers → pingTick id st' = st'))
    ∧ pingIntervalMs = 30000 := by
  refine ⟨?_, ?_, ⟨?_, ?_⟩, rfl⟩
  · intro hl hf ht
    exact iterTicks_ok k st id s hl hf ht
  · intro ht hl hf
    have hstep := pingTick_fail ht hl hf
    have htim : id ∉ (pingTick id st).timers := by
      rw [hstep]; simp [mem_mapDelete]
    refine ⟨htim, ?_, pingTick_skip htim⟩
    rw [hstep]
    simp [mem_mapDelete]
  · rw [closeEv]; simp [mem_mapDelete]
  · intro st' h
    exact pingTick_skip h

theorem keepalive_probe_schedule_witness :
    lookupS (iterTicks 2 "a" ⟨[("a", ⟨false, []⟩)], ["a"], ["a"]⟩).socks "a"
      = some ⟨false, [pingMsg, pingMsg]⟩ := by
  have h := ((keepalive_probe_schedule
    ⟨[("a", ⟨false, []⟩)], ["a"], ["a"]⟩ "a" ⟨false, []⟩ 2).1 rfl rfl (by decide)).1
  simpa using h

/-- C8: for every well-formed finite sequence of admit/remove operations
(admitted ids are fresh, as `crypto.randomUUID()` guarantees) starting
from the empty registry, an id is a member afterwards exactly when it was
admitted and not removed; and deleting an absent id is a no-op. -/
theorem registry_membership_admits_minus_removes (ops : List RegOp) (id : String)
    (hwf : wfFrom [] ops = true) :
    (id ∈ runOps ops ↔ (RegOp.register id ∈ ops ∧ RegOp.remove id ∉ ops))
    ∧ (id ∉ runOps ops → mapDelete (runOps ops) id = runOps ops) := by
  constructor
  · have h := runOps_mem_aux ops [] [] hwf (by simp) id
    rw [runOps]
    simpa using h
  · intro h
    exact mapDelete_not_mem h

theorem registry_membership_admits_minus_removes_witness :
    ("b" ∈ runOps [RegOp.register "a", RegOp.remove "a", RegOp.remove "a", RegOp.register "b"]
      ↔ (RegOp.register "b"
            ∈ [RegOp.register "a", RegOp.remove "a", RegOp.remove "a", RegOp.register "b"]
          ∧ RegOp.remove "b"
            ∉ [RegOp.register "a", RegOp.remove "a", RegOp.remove "a", RegOp.register "b"]))
    ∧ ("b" ∉ runOps [RegOp.register "a", RegOp.remove "a", RegOp.remove "a", RegOp.register "b"] →
        mapDelete
          (runOps [RegOp.register "a", RegOp.remove "a", RegOp.remove "a", RegOp.register "b"])
          "b"
        = runOps [RegOp.register "a", RegOp.remove "a", RegOp.remove "a", RegOp.register "b"]) :=
  registry_membership_admits_minus_removes
    [RegOp.register "a", RegOp.remove "a", RegOp.remove "a", RegOp.register "b"] "b" (by decide)

/-- C6: a POST whose body declares a JSON content type but does not parse
propagates the parse failure to the HTTP caller instead of answering 200:
the room's fetch returns the error outcome, no connection receives
anything and the registry is unchanged (the state is returned untouched). -/
theorem malformed_json_broadcast_rejected (req : Request) (newId : String)
    (st : RoomState) (hm : req.method = "POST")
    (hu : req.upgradeHeader ≠ some "websocket")
    (hct : isJsonCT req.contentType = true)
    (hub : Json.parse req.body = none) :
    roomFetch req newId st = (.error "SyntaxError", st) := by
  have hopt : req.method ≠ "OPTIONS" := by rw [hm]; decide
  rw [roomFetch, if_neg hopt, if_neg hu, if_pos hm]
  simp [handleResponse, hct, hub]

theorem malformed_json_broadcast_rejected_witness :
    roomFetch ⟨"POST", none, "application/json", "nope"⟩ "id1"
        ⟨[("a", ⟨false, []⟩)], ["a"], ["a"]⟩
      = (.error "SyntaxError", ⟨[("a", ⟨false, []⟩)], ["a"], ["a"]⟩) :=
  malformed_json_broadcast_rejected ⟨"POST", none, "application/json", "nope"⟩
    "id1" ⟨[("a", ⟨false, []⟩)], ["a"], ["a"]⟩ rfl (by decide) rfl rfl

/-- C10: any non-OPTIONS request carrying `Upgrade: websocket` takes the
upgrade branch — before the method is ever inspected — so it is answered
101 and admitted as a connection (fresh socket stored, id registered,
keepalive started); in particular a POST with that header is admitted
and not treated as a broadcast. -/
theorem upgrade_check_precedes_method_check (req : Request) (newId : String)
    (st : RoomState) (hm : req.method ≠ "OPTIONS")
    (hu : req.upgradeHeader = some "websocket") :
    roomFetch req newId st
      = (.ok 101,
         { socks := st.socks ++ [(newId, { sendFails := false, received := [] })],
           connections := mapSet st.connections newId,
           timers := st.timers ++ [newId] }) := by
  rw [roomFetch, if_neg hm, if_pos hu]

theorem upgrade_check_precedes_method_check_witness :
    roomFetch ⟨"POST", some "websocket", "application/json", "x"⟩ "id1" ⟨[], [], []⟩
      = (.ok 101, ⟨[("id1", ⟨false, []⟩)], ["id1"], ["id1"]⟩) := by
  have h := upgrade_check_precedes_method_check
    ⟨"POST", some "websocket", "application/json", "x"⟩ "id1" ⟨[], [], []⟩
    (by decide) rfl
  simpa [mapSet] using h

end HookSocket
